import Mathlib

/-!
Verification of the bee structured-logging formatter (package `log`,
files `formatter.go` / `log.go` and the near-identical
`pkg/log/internal/funcr.go` variant) against its natural-language
specification.

The Go renderer works on dynamically-typed `interface\x7b\x7d` values.  We embed
the universe of renderable values as the inductive type `Value` below; each
constructor records the reflection-level information the renderer inspects
(dynamic kind, json struct tags, optional Marshaler / Stringer / error /
TextMarshaler capabilities).  Stateful buffer writes become pure string
concatenation; `recover`-guarded capability calls become the `PanicOr` sum.

Scope notes (fragments of Go's value universe that no claim touches and that
are not modelled): float, complex and named-string dynamic types.  In
`AddValues`, `flatten` writes fixed keys back through the slice backing
shared with the stored list; `addValues` models those writes where Go
guarantees them (even combined length) and keeps the stored list unchanged
in the odd case, where the sentinel `append` makes the aliasing depend on
the unspecified capacity of the preceding three-index `append`.
-/

set_option autoImplicit false

namespace BeeLog

/-- Go: `messageCategory` (formatter.go). -/
inductive MessageCategory where
  | categoryNone
  | categoryAll
  | categoryError
  | categoryWarning
  | categoryInfo
  | categoryDebug
deriving DecidableEq, Repr

/-- Go: `outputFormat` (formatter.go). -/
inductive OutputFormat where
  | outputKeyValue
  | outputJSON
deriving DecidableEq, Repr

/-- Go: `noValue = "<no-value>"`, the placeholder for missing values. -/
def noValue : String := "<no-value>"

/-- Go: `defaultTimestampFormat`. -/
def defaultTimestampFormat : String := "2006-01-02 15:04:05.000000"

/-- Go: `defaultMaxLogDepth = 16`. -/
def defaultMaxLogDepth : Int := 16

/-- Go: `fmtOptions` (formatter.go).  `maxLogDepth` is a Go `int`, hence `Int`. -/
structure FmtOptions where
  logCaller : MessageCategory
  logCallerFunc : Bool
  logTimestamp : Bool
  timestampFormat : String
  maxLogDepth : Int
  outputFormat : OutputFormat
  callerDepth : Int
deriving DecidableEq, Repr

/-- The zero `fmtOptions` value (Go zero-initialised struct). -/
def fmtOptionsZero : FmtOptions :=
  { logCaller := .categoryNone
    logCallerFunc := false
    logTimestamp := false
    timestampFormat := ""
    maxLogDepth := 0
    outputFormat := .outputKeyValue
    callerDepth := 0 }

/-- Result of calling a user capability under `recover` (Go's
`invokeMarshaler` / `invokeStringer` / `invokeError` guards): either a normal
return or a panic with the `fmt.Sprintf`-formatted payload text. -/
inductive PanicOr (α : Type) where
  | ok (a : α)
  | panics (payload : String)
deriving DecidableEq, Repr

mutual
/-- A renderable Go value, as seen by `Formatter.prettyWithFlags`: dynamic
kinds plus the optional capabilities the renderer probes for.  The capability
constructors carry the underlying value (what reflection sees if the renderer
falls through to the `reflect` switch) and the capability call's outcome. -/
inductive Value where
  /-- dynamic type `bool` (also kind `reflect.Bool`). -/
  | vbool (b : Bool)
  /-- dynamic signed-integer types (kinds `reflect.Int*`); rendered base 10. -/
  | vint (n : Int)
  /-- dynamic unsigned-integer types (kinds `reflect.Uint*`); rendered base 10. -/
  | vuint (n : Nat)
  /-- dynamic type `string` (also kind `reflect.String`). -/
  | vstr (s : String)
  /-- nil `interface\x7b\x7d` value: `reflect.TypeOf(value) == nil`. -/
  | vnil
  /-- kinds `reflect.Ptr` / `reflect.Interface`: `none` models a nil
  reference, `some v` a reference whose referent is `v`. -/
  | vptr (referent : Option Value)
  /-- kinds `reflect.Slice` / `reflect.Array`. -/
  | vslice (elems : List Value)
  /-- kind `reflect.Struct`; fields in declaration order. -/
  | vstruct (fields : List StructField)
  /-- kind `reflect.Map`.  `keyKindString` is `t.Key().Kind() == reflect.String`;
  entries are in Go's (unspecified) iteration order. -/
  | vmap (keyKindString : Bool) (entries : List (Value × Value))
  /-- the named type `PseudoStruct []interface\x7b\x7d`. -/
  | vpseudo (kv : List Value)
  /-- a value implementing `Marshaler`; `r` is what `MarshalLog()` does. -/
  | vmarshaler (underlying : Value) (r : PanicOr Value)
  /-- a value implementing `fmt.Stringer`; `r` is what `String()` does. -/
  | vstringer (underlying : Value) (r : PanicOr String)
  /-- a value implementing `error`; `r` is what `Error()` does. -/
  | verror (underlying : Value) (r : PanicOr String)
  /-- a value implementing `encoding.TextMarshaler` (probed only for map
  keys); `r` is what `MarshalText()` returns. -/
  | vtextm (underlying : Value) (r : Except String String)

/-- One struct field as reflection presents it to the renderer. -/
inductive StructField where
  | mk (name : String) (exported : Bool) (anonymous : Bool)
      (tag : Option String) (value : Value)
end

/-- Go: `fld.Name`. -/
def StructField.name : StructField → String
  | .mk n _ _ _ _ => n

/-- Go: `fld.PkgPath == "" && v.Field(i).CanInterface()`. -/
def StructField.exported : StructField → Bool
  | .mk _ e _ _ _ => e

/-- Go: `fld.Anonymous`. -/
def StructField.anonymous : StructField → Bool
  | .mk _ _ a _ _ => a

/-- Go: `fld.Tag.Lookup ("json")`. -/
def StructField.tag : StructField → Option String
  | .mk _ _ _ t _ => t

/-- Go: `v.Field(i).Interface()`. -/
def StructField.value : StructField → Value
  | .mk _ _ _ _ v => v

mutual
/-- Structural weight of a value, used as the termination measure of the
renderer.  String/number leaves weigh 0 so that sanitize's `noValue` padding
does not increase the measure. -/
def Value.weight : Value → Nat
  | .vbool _ => 0
  | .vint _ => 0
  | .vuint _ => 0
  | .vstr _ => 0
  | .vnil => 0
  | .vptr none => 0
  | .vptr (some v) => 1 + v.weight
  | .vslice l => 1 + weightList l
  | .vstruct fs => 1 + weightFields fs
  | .vmap _ es => 1 + weightEntries es
  | .vpseudo l => 1 + weightList l
  | .vmarshaler u r => 1 + u.weight + weightPanicOr r
  | .vstringer u _ => 1 + u.weight
  | .verror u _ => 1 + u.weight
  | .vtextm u _ => 1 + u.weight

/-- Weight of a list of values; each cons costs 1. -/
def weightList : List Value → Nat
  | [] => 0
  | v :: rest => 1 + v.weight + weightList rest

/-- Weight of a struct-field list; each cons costs 1. -/
def weightFields : List StructField → Nat
  | [] => 0
  | .mk _ _ _ _ v :: rest => 1 + v.weight + weightFields rest

/-- Weight of a map-entry list; each cons costs 1. -/
def weightEntries : List (Value × Value) → Nat
  | [] => 0
  | (k, v) :: rest => 1 + k.weight + v.weight + weightEntries rest

/-- Weight of a capability outcome. -/
def weightPanicOr : PanicOr Value → Nat
  | .ok v => 1 + v.weight
  | .panics _ => 0
end

/-- Models Go's `strconv.IsPrint`, restricted to the ASCII range (the full
Unicode print tables are not reproduced; every claim only exercises ASCII). -/
def goIsPrint (c : Char) : Bool :=
  0x20 ≤ c.toNat && c.toNat ≤ 0x7E

/-- Go: `needsEscape` (formatter.go): true iff some rune is non-printable or
is a backslash or a double quote. -/
def needsEscape (s : String) : Bool :=
  s.toList.any fun r => !goIsPrint r || r == '\\' || r == '"'

/-- Hex digit for quoting non-printable characters. -/
def hexDigit (n : Nat) : Char :=
  if n < 10 then Char.ofNat (48 + n) else Char.ofNat (87 + n)

/-- Four-digit hex rendering used by the `strconv.Quote` model. -/
def hex4 (n : Nat) : String :=
  String.mk [hexDigit (n / 4096 % 16), hexDigit (n / 256 % 16),
             hexDigit (n / 16 % 16), hexDigit (n % 16)]

/-- One character of the `strconv.Quote` model. -/
def goQuoteChar (c : Char) : String :=
  if c = '\\' then "\\\\"
  else if c = '"' then "\\\""
  else if c = '\n' then "\\n"
  else if c = '\t' then "\\t"
  else if c = '\r' then "\\r"
  else if goIsPrint c then String.singleton c
  else "\\u" ++ hex4 c.toNat

/-- Models Go's `strconv.Quote` (stdlib): quote and escape a string. -/
def goQuote (s : String) : String :=
  "\"" ++ String.join (s.toList.map goQuoteChar) ++ "\""

/-- Go: `prettyString` (formatter.go): quote, escaping only when needed. -/
def prettyString (s : String) : String :=
  if needsEscape s then goQuote s
  else "\"" ++ s ++ "\""

/-- Go: the `fmt.Sprintf ("<panic: %s>", r)` marker text built by the three
invoke guards. -/
def panicMarker (payload : String) : String :=
  "<panic: " ++ payload ++ ">"

/-- Go: `invokeMarshaler` (formatter.go): call `MarshalLog` under `recover`;
a panic is converted to the marker string (as an `interface\x7b\x7d` value). -/
def invokeMarshaler : PanicOr Value → Value
  | .ok v => v
  | .panics p => .vstr (panicMarker p)

/-- Go: `invokeStringer` (formatter.go). -/
def invokeStringer : PanicOr String → String
  | .ok s => s
  | .panics p => panicMarker p

/-- Go: `invokeError` (formatter.go). -/
def invokeError : PanicOr String → String
  | .ok s => s
  | .panics p => panicMarker p

/-- Whether the dynamic type is exactly `string` (Go type assertion
`.(string)` in `flatten` / `sanitize`). -/
def isStringVal : Value → Bool
  | .vstr _ => true
  | _ => false

/-- Whether the field's type kind is `reflect.Struct` (anonymous-field
splicing test in the struct branch). -/
def isStructValue : Value → Bool
  | .vstruct _ => true
  | _ => false

/-- Go: `isEmpty` (formatter.go): the `omitempty` emptiness test. -/
def isEmptyValue : Value → Bool
  | .vslice l => l.isEmpty
  | .vmap _ es => es.isEmpty
  | .vpseudo l => l.isEmpty
  | .vstr s => s.isEmpty
  | .vbool b => !b
  | .vint n => n == 0
  | .vuint n => n == 0
  | .vptr o => o.isNone
  | .vnil => true
  | _ => false

/-- Models Go's `strings.Contains` on rune lists. -/
def listIsInfixOf (pat : List Char) : List Char → Bool
  | [] => pat.isEmpty
  | c :: rest => pat.isPrefixOf (c :: rest) || listIsInfixOf pat rest

/-- Models Go's `strings.Contains`. -/
def strContains (s pat : String) : Bool :=
  listIsInfixOf pat.toList s.toList

/-- Models Go's `strings.HasSuffix`. -/
def strHasSuffix (s suf : String) : Bool :=
  suf.toList.isSuffixOf s.toList

/-- The json-tag parse of the struct branch (formatter.go): split at the
first comma; the part before it (if nonempty) is the rename, and `omitempty`
holds when the rest contains `",omitempty,"` or ends in `",omitempty"`. -/
def tagNameOmitempty (tag : String) : String × Bool :=
  match tag.toList.findIdx? (· == ',') with
  | some comma =>
      let n := String.mk (tag.toList.take comma)
      let rest := String.mk (tag.toList.drop comma)
      let midPat := ",omitempty,"
      let sufPat := ",omitempty"
      ((if n ≠ "" then n else ""), strContains rest midPat || strHasSuffix rest sufPat)
  | none => (tag, false)

/-- Byte length of a string (sum of UTF-8 sizes of its characters). -/
def byteLen (s : String) : Nat :=
  s.toList.foldr (fun c acc => c.utf8Size + acc) 0

/-- Longest prefix (in whole characters) fitting in `n` bytes. -/
def takeBytes : List Char → Nat → List Char
  | [], _ => []
  | c :: cs, n => if c.utf8Size ≤ n then c :: takeBytes cs (n - c.utf8Size) else []

/-- Models the byte-slicing `snip[:snipLen]` of `Formatter.snippet`: truncate
to at most `n` bytes.  Go may keep the leading bytes of a split multi-byte
character; a Lean string holds whole characters, so the split character is
dropped instead (identical on ASCII output). -/
def snipTruncate (s : String) (n : Nat) : String :=
  if byteLen s > n then String.mk (takeBytes s.toList n) else s

/-- Go: `Formatter` (formatter.go).  The Go field `prefix` is called
`namePrefix` here because `prefix` is a Lean keyword. -/
structure Formatter where
  namePrefix : String
  values : List Value
  valuesStr : String
  opts : FmtOptions

/-- Go: `newFormatter` (formatter.go): apply option defaults and start with
the `"root"` name prefix (`values`/`valuesStr` start at their zero values). -/
def newFormatter (opts : FmtOptions) : Formatter :=
  let opts :=
    if opts.timestampFormat = "" then
      { opts with timestampFormat := defaultTimestampFormat }
    else opts
  let opts :=
    if opts.maxLogDepth = 0 then
      { opts with maxLogDepth := defaultMaxLogDepth }
    else opts
  { namePrefix := "root", values := [], valuesStr := "", opts := opts }

/-- The already-quoted literal returned when the depth limit is hit
(formatter.go line 237). -/
def maxLogDepthMarker : String := "\"<max-log-depth-exceeded>\""

mutual

/-- Go: `Formatter.prettyWithFlags` (formatter.go 233-445), first stage: the
depth-limit check, then the Marshaler capability probe whose replacement
value falls through to the Stringer/error switch (`afterMarshaler`).  `raw`
models the `flagRawStruct` bit of the `flags` word (the only flag used). -/
def prettyWithFlags (f : Formatter) (value : Value) (raw : Bool) (depth : Nat) : String :=
  if (depth : Int) > f.opts.maxLogDepth then
    maxLogDepthMarker
  else
    match value with
    | .vmarshaler _ r => afterMarshaler f (invokeMarshaler r) raw depth
    | v => afterMarshaler f v raw depth
termination_by value.weight * 16 + 6
decreasing_by
  · rename_i r
    cases r <;> (simp [invokeMarshaler, Value.weight, weightPanicOr]; try omega)
  · omega

/-- Go: `Formatter.prettyWithFlags`, second stage: the
`fmt.Stringer` / `error` type switch; the substituted string continues into
the main dispatch. -/
def afterMarshaler (f : Formatter) (value : Value) (raw : Bool) (depth : Nat) : String :=
  match value with
  | .vstringer _ r => dispatchValue f (.vstr (invokeStringer r)) raw depth
  | .verror _ r => dispatchValue f (.vstr (invokeError r)) raw depth
  | v => dispatchValue f v raw depth
termination_by value.weight * 16 + 5
decreasing_by all_goals first
  | omega
  | (simp [Value.weight]; try omega)

/-- Go: `Formatter.prettyWithFlags`, main dispatch: the common-type switch
followed by the `reflect` kind switch (formatter.go 256-444).  A capability
value that survives to this point (e.g. a Marshaler returned by another
Marshaler) is handled by reflection over its underlying value, without any
further capability invocation — exactly what Go's `reflect.ValueOf` sees. -/
def dispatchValue (f : Formatter) (value : Value) (raw : Bool) (depth : Nat) : String :=
  match value with
  | .vbool b => if b then "true" else "false"
  | .vstr s => prettyString s
  | .vint n => toString n
  | .vuint n => toString n
  | .vpseudo kv =>
      (if raw then "" else "\x7b")
      ++ prettyPseudoPairs f kv 0 depth
      ++ (if raw then "" else "\x7d")
  | .vnil => "null"
  | .vstruct fields =>
      (if raw then "" else "\x7b")
      ++ prettyStructFields f fields 0 depth
      ++ (if raw then "" else "\x7d")
  | .vslice elems => "[" ++ prettySliceElems f elems 0 depth ++ "]"
  | .vmap keyKindString entries =>
      "\x7b" ++ prettyMapEntries f keyKindString entries 0 depth ++ "\x7d"
  | .vptr none => "null"
  | .vptr (some v) => prettyWithFlags f v false depth
  | .vmarshaler u _ => dispatchValue f u raw depth
  | .vstringer u _ => dispatchValue f u raw depth
  | .verror u _ => dispatchValue f u raw depth
  | .vtextm u _ => dispatchValue f u raw depth
termination_by value.weight * 16 + 4
decreasing_by all_goals (simp [Value.weight]; try omega)

/-- Go: the `PseudoStruct` arm (formatter.go 291-310): the pair list is
sanitized (padding a lone trailing key with `noValue` and stringifying
non-string keys — inlined here via `sanitizedKey`), then each pair is written
as `escapedKey:value` with a comma whenever the running index is positive;
values recurse at `depth + 1`. -/
def prettyPseudoPairs (f : Formatter) (kv : List Value) (i : Nat) (depth : Nat) : String :=
  match kv with
  | [] => ""
  | [k] =>
      (if i > 0 then "," else "")
      ++ prettyString (sanitizedKey f k) ++ ":"
      ++ prettyWithFlags f (.vstr noValue) false (depth + 1)
  | k :: v :: rest =>
      (if i > 0 then "," else "")
      ++ prettyString (sanitizedKey f k) ++ ":"
      ++ prettyWithFlags f v false (depth + 1)
      ++ prettyPseudoPairs f rest (i + 2) depth
termination_by weightList kv * 16
decreasing_by all_goals (simp [Value.weight, weightList]; try omega)

/-- Go: the `reflect.Struct` arm (formatter.go 336-391): iterate fields in
declaration order (index `i`), skipping unexported fields, fields tagged
`json:"-"` and empty `omitempty` fields; the comma separator is written
whenever the declaration index `i` is positive; anonymous unrenamed struct
fields are spliced in raw (with `flagRawStruct` set); field values recurse
at `depth + 1`. -/
def prettyStructFields (f : Formatter) (fields : List StructField) (i : Nat) (depth : Nat) : String :=
  match fields with
  | [] => ""
  | .mk fldName exported anonymous tag fldValue :: rest =>
    if !exported then prettyStructFields f rest (i + 1) depth
    else
      let nameOm : Option (String × Bool) :=
        match tag with
        | none => some ("", false)
        | some t => if t = "-" then none else some (tagNameOmitempty t)
      match nameOm with
      | none => prettyStructFields f rest (i + 1) depth
      | some (name, omitempty) =>
        if omitempty && isEmptyValue fldValue then
          prettyStructFields f rest (i + 1) depth
        else
          (if i > 0 then "," else "")
          ++ (if anonymous && isStructValue fldValue && name = "" then
                prettyWithFlags f fldValue true (depth + 1)
              else
                "\"" ++ (if name = "" then fldName else name) ++ "\"" ++ ":"
                ++ prettyWithFlags f fldValue false (depth + 1))
          ++ prettyStructFields f rest (i + 1) depth
termination_by weightFields fields * 16 + 1
decreasing_by all_goals (simp [Value.weight, weightFields]; try omega)

/-- Go: the `reflect.Slice` / `reflect.Array` arm (formatter.go 392-402):
elements separated by commas, each recursing at `depth + 1`. -/
def prettySliceElems (f : Formatter) (elems : List Value) (i : Nat) (depth : Nat) : String :=
  match elems with
  | [] => ""
  | e :: rest =>
      (if i > 0 then "," else "")
      ++ prettyWithFlags f e false (depth + 1)
      ++ prettySliceElems f rest (i + 1) depth
termination_by weightList elems * 16
decreasing_by all_goals (simp [Value.weight, weightList]; try omega)

/-- Go: the `reflect.Map` arm (formatter.go 403-437): a key implementing
`encoding.TextMarshaler` uses that encoding (an error substitutes the
`<error-MarshalText: ...>` marker), any other key is rendered recursively at
`depth + 1` and re-quoted when the key's type kind is not `reflect.String`;
values recurse at `depth + 1`. -/
def prettyMapEntries (f : Formatter) (keyKindString : Bool) (entries : List (Value × Value)) (i : Nat) (depth : Nat) : String :=
  match entries with
  | [] => ""
  | (k, v) :: rest =>
      (if i > 0 then "," else "")
      ++ (let keystr := prettyWithFlags f k false (depth + 1)
          match k with
          | .vtextm _ (.ok txt) => prettyString txt
          | .vtextm _ (.error e) =>
              prettyString ("<error-MarshalText: " ++ e ++ ">")
          | _ => if keyKindString then keystr else prettyString keystr)
      ++ ":" ++ prettyWithFlags f v false (depth + 1)
      ++ prettyMapEntries f keyKindString rest (i + 1) depth
termination_by weightEntries entries * 16
decreasing_by all_goals (simp [Value.weight, weightEntries]; try omega)

/-- The key fix applied by `sanitize` / `flatten` / the `PseudoStruct` arm: a
dynamic string is kept, anything else is replaced by
`Formatter.nonStringKey`. -/
def sanitizedKey (f : Formatter) (k : Value) : String :=
  match k with
  | .vstr s => s
  | k => nonStringKey f k
termination_by k.weight * 16 + 11
decreasing_by omega

/-- Go: `Formatter.nonStringKey` (formatter.go 531-533). -/
def nonStringKey (f : Formatter) (v : Value) : String :=
  "<non-string-key: " ++ snippet f v ++ ">"
termination_by v.weight * 16 + 10
decreasing_by omega

/-- Go: `Formatter.snippet` (formatter.go 536-544): render the value and
truncate to 16 bytes. -/
def snippet (f : Formatter) (v : Value) : String :=
  snipTruncate (pretty f v) 16
termination_by v.weight * 16 + 9
decreasing_by omega

/-- Go: `Formatter.pretty` (formatter.go 228-230). -/
def pretty (f : Formatter) (v : Value) : String :=
  prettyWithFlags f v false 0
termination_by v.weight * 16 + 8
decreasing_by omega

end

/-- Go: the padding step shared by `flatten` and `sanitize` (formatter.go
189-191 and 550-552): an odd-length key/value list gets one trailing
`noValue` sentinel. -/
def padKV (kvList : List Value) : List Value :=
  if kvList.length % 2 ≠ 0 then kvList ++ [.vstr noValue] else kvList

/-- One step of the `sanitize` loop (formatter.go 553-558): a key whose
dynamic type is not `string` is replaced by the generated marker. -/
def keyFix (f : Formatter) (k : Value) : Value :=
  match k with
  | .vstr _ => k
  | k => .vstr (nonStringKey f k)

/-- Go: the loop of `Formatter.sanitize` (formatter.go 553-558): fix the key
at every even index (a lone trailing key is also a key position). -/
def sanitizeLoop (f : Formatter) : List Value → List Value
  | [] => []
  | [k] => [keyFix f k]
  | k :: v :: rest => keyFix f k :: v :: sanitizeLoop f rest

/-- Go: `Formatter.sanitize` (formatter.go 549-560). -/
def sanitize (f : Formatter) (kvList : List Value) : List Value :=
  sanitizeLoop f (padKV kvList)

/-- Go: the loop of `Formatter.flatten` (formatter.go 192-224) on the padded
list, two elements at a time.  `continuing` says whether a separator must
precede the first pair; every later pair gets one (`i > 0`). -/
def flattenPairs (f : Formatter) (kvList : List Value) (continuing : Bool) (escapeKeys : Bool) : String :=
  match kvList with
  | k :: v :: rest =>
      (if continuing then (if f.opts.outputFormat = .outputJSON then "," else " ") else "")
      ++ (if escapeKeys then prettyString (sanitizedKey f k)
          else "\"" ++ sanitizedKey f k ++ "\"")
      ++ (if f.opts.outputFormat = .outputJSON then ":" else "=")
      ++ pretty f v
      ++ flattenPairs f rest true escapeKeys
  | _ => ""

/-- Go: `Formatter.flatten` (formatter.go 186-226), as the text it appends to
the buffer (its returned sanitized list is discarded by every caller). -/
def flattenStr (f : Formatter) (kvList : List Value) (continuing escapeKeys : Bool) : String :=
  flattenPairs f (padKV kvList) continuing escapeKeys

/-- Go: `Formatter.render` (formatter.go 148-175). -/
def render (f : Formatter) (builtins args : List Value) : String :=
  (if f.opts.outputFormat = .outputJSON then "\x7b" else "")
  ++ flattenStr f builtins false false
  ++ (if f.valuesStr.length > 0 then
        (if builtins.length > 0 then
          (if f.opts.outputFormat = .outputJSON then "," else " ")
         else "") ++ f.valuesStr
      else "")
  ++ flattenStr f args (if f.valuesStr.length > 0 then true else builtins.length > 0) true
  ++ (if f.opts.outputFormat = .outputJSON then "\x7d" else "")
  ++ "\n"

/-- Go: `Formatter.AddValues` (formatter.go 582-591): append the new pairs to
the saved values and eagerly re-render the `valuesStr` cache via `flatten`.
`flatten` also writes each fixed key back into the list (`kvList[i] = k`,
formatter.go 195-196).  For an even-length combined list those writes go
through the slice backing shared with the stored `f.values`, so the stored
list is guaranteed to end up key-fixed (`sanitizeLoop`); for an odd-length
list `flatten` first appends the `noValue` sentinel, and whether the key
writes still alias `f.values` depends on the unspecified capacity of the
three-index `append` above, so the model keeps the stored list unchanged in
that case.  The sentinel itself is never visible in `f.values`, whose length
is fixed before `flatten` runs. -/
def addValues (f : Formatter) (kvList : List Value) : Formatter :=
  let appended := f.values ++ kvList
  let values :=
    if appended.length % 2 ≠ 0 then appended else sanitizeLoop f appended
  { f with values := values, valuesStr := flattenStr f appended false true }

/-- Go: `Formatter.AddName` (formatter.go 573-578). -/
def addName (f : Formatter) (name : String) : Formatter :=
  { f with namePrefix :=
      (if f.namePrefix.length > 0 then f.namePrefix ++ "/" else f.namePrefix) ++ name }

/-- Go: `Formatter.base` (formatter.go 562-568); `now` stands for the
formatted `time.Now()` text. -/
def base (f : Formatter) (level : String) (now : String) : List Value :=
  (if f.opts.logTimestamp then [.vstr "time", .vstr now] else [])
  ++ [.vstr "level", .vstr level, .vstr "logger", .vstr f.namePrefix]

/-- Go: `VerbosityAll` (log.go 59). -/
def VerbosityAll : Int := 2 ^ 31 - 1

/-- Go: `VerbosityNone` (log.go 60).  In the `const` block `iota` is 1 on
this line, so `VerbosityNone = Level(1 - 4) = -3`. -/
def VerbosityNone : Int := -3

/-- Go: `VerbosityError` (log.go 61): repeats `Level(iota - 4)` with
`iota = 2`, so `-2`. -/
def VerbosityError : Int := -2

/-- Go: `VerbosityWarning` (log.go 62). -/
def VerbosityWarning : Int := -1

/-- Go: `VerbosityInfo` (log.go 63). -/
def VerbosityInfo : Int := 0

/-- Go: `VerbosityDebug` (log.go 64). -/
def VerbosityDebug : Int := 1

/-- Go: `basicLogger` (log.go 98-112).  The sink is not modelled; an emitted
line is the function result of a log call. -/
structure BasicLogger where
  fmt : Formatter
  debugL : Nat
  verbosity : Int

/-- Go: `basicLogger.Error` (log.go 196-213): the line is rendered and
emitted only when `verbosity >= VerbosityError`; `none` models the call
writing nothing to the sink.  `err` is the argument's `Error()` text
(`none` = nil error); `now` and `callerV` stand for the ambient timestamp
text and call-site record. -/
def BasicLogger.errorCall (l : BasicLogger) (err : Option String) (msg : String)
    (keysAndValues : List Value) (now : String) (callerV : Value) : Option String :=
  if l.verbosity ≥ VerbosityError then
    let args := base l.fmt "error" now
    let args :=
      if l.fmt.opts.logCaller = .categoryAll ∨ l.fmt.opts.logCaller = .categoryError then
        args ++ [.vstr "caller", callerV]
      else args
    let args := args ++ [.vstr "msg", .vstr msg]
    let loggableErr : Value :=
      match err with
      | some e => .vstr e
      | none => .vnil
    let args := args ++ [.vstr "error", loggableErr]
    some (render l.fmt args keysAndValues)
  else none

/-- One rendered key/value pair, as §4.3 of the spec describes it: the key
written either escaped (call-site keys) or bare-quoted (builtin keys), the
mode's assignment punctuation, then the rendered value. -/
def pairPiece (f : Formatter) (escapeKeys : Bool) (p : Value × Value) : String :=
  (if escapeKeys then prettyString (sanitizedKey f p.1)
   else "\"" ++ sanitizedKey f p.1 ++ "\"")
  ++ (if f.opts.outputFormat = .outputJSON then ":" else "=")
  ++ pretty f p.2

/-- Chunk a flat key/value list into consecutive pairs. -/
def toPairs : List Value → List (Value × Value)
  | k :: v :: rest => (k, v) :: toPairs rest
  | _ => []

/-- The rendered pieces of one key/value group (after sentinel padding). -/
def groupPieces (f : Formatter) (escapeKeys : Bool) (kv : List Value) : List String :=
  (toPairs (padKV kv)).map (pairPiece f escapeKeys)

/-- Join a list of pieces with a separator between consecutive pieces (the
spec's "separator before each pair except the first"). -/
def joinSep (sep : String) : List String → String
  | [] => ""
  | [x] => x
  | x :: y :: rest => x ++ sep ++ joinSep sep (y :: rest)

/-- Spec-side line assembly, following §4.3 of the spec: `\x7b` in JSON mode;
the builtin pieces, the persisted text (when nonempty) and the call-site
pieces, in that fixed order, joined with the mode separator written before
every piece except the first; `\x7d` in JSON mode; one newline. -/
def assembleSpec (f : Formatter) (builtins : List Value) (persistedText : String) (args : List Value) : String :=
  let sep := if f.opts.outputFormat = .outputJSON then "," else " "
  let pieces := groupPieces f false builtins
    ++ (if persistedText ≠ "" then [persistedText] else [])
    ++ groupPieces f true args
  (if f.opts.outputFormat = .outputJSON then "\x7b" else "")
  ++ joinSep sep pieces
  ++ (if f.opts.outputFormat = .outputJSON then "\x7d" else "")
  ++ "\n"

/-- Join pieces writing `sep` before each piece except, unless `continuing`,
the first — the bridge between `flattenPairs` and `String.intercalate`. -/
def joinFrom (sep : String) : Bool → List String → String
  | _, [] => ""
  | continuing, x :: xs => (if continuing then sep else "") ++ x ++ joinFrom sep true xs

/-- Slice-nesting gadget for the depth claims: wrap a value in `n` nested
one-element slices. -/
def nestK : Nat → Value → Value
  | 0, v => v
  | n + 1, v => .vslice [nestK n v]

/-- String replication helper. -/
def repStr : Nat → String → String
  | 0, _ => ""
  | n + 1, s => s ++ repStr n s

/-- Value of the pointer fragment used for the termination analysis:
`rcell id` is a pointer whose target lives in a heap of cells, so
self-referential chains (Go: `type T *T; var p T; p = &p`) are expressible —
the inductive `Value` cannot contain them. -/
inductive RefValue where
  | rint (n : Int)
  | rslice (elems : List RefValue)
  | rptr (target : Option RefValue)
  | rcell (id : Nat)

mutual

/-- Fuel-indexed model of `prettyWithFlags` on the int/slice/pointer fragment,
faithful to the source's depth bookkeeping: slice elements recurse at
`depth + 1`, dereferencing a pointer or interface recurses at the same depth
(formatter.go 438-443).  Every recursive call consumes one unit of fuel;
`none` means the call did not return within the given fuel. -/
def prettyFuel (maxDepth : Int) (heap : List RefValue) : Nat → RefValue → Nat → Option String
  | 0, _, _ => none
  | fuel + 1, v, depth =>
    if (depth : Int) > maxDepth then some maxLogDepthMarker
    else
      match v with
      | .rint n => some (toString n)
      | .rslice elems =>
          (prettyFuelList maxDepth heap fuel elems 0 (depth + 1)).map
            (fun body => "[" ++ body ++ "]")
      | .rptr none => some "null"
      | .rptr (some t) => prettyFuel maxDepth heap fuel t depth
      | .rcell id =>
          match heap.get? id with
          | none => some "null"
          | some t => prettyFuel maxDepth heap fuel t depth

/-- Slice-element loop of the fuel model (comma before every element with a
positive index, exactly as `prettySliceElems`). -/
def prettyFuelList (maxDepth : Int) (heap : List RefValue) : Nat → List RefValue → Nat → Nat → Option String
  | _, [], _, _ => some ""
  | fuel, e :: rest, i, depth =>
      match prettyFuel maxDepth heap fuel e depth,
            prettyFuelList maxDepth heap fuel rest (i + 1) depth with
      | some s, some srest => some ((if i > 0 then "," else "") ++ s ++ srest)
      | _, _ => none

end

mutual

/-- Heap-reference-free values of the pointer fragment: finite trees. -/
def RefValue.noCell : RefValue → Bool
  | .rint _ => true
  | .rslice elems => noCellList elems
  | .rptr none => true
  | .rptr (some t) => t.noCell
  | .rcell _ => false

/-- All elements heap-reference-free. -/
def noCellList : List RefValue → Bool
  | [] => true
  | e :: rest => e.noCell && noCellList rest

end

mutual

/-- Structural height of a pointer-fragment value (fuel bound). -/
def RefValue.height : RefValue → Nat
  | .rint _ => 0
  | .rslice elems => 1 + heightList elems
  | .rptr none => 0
  | .rptr (some t) => 1 + t.height
  | .rcell _ => 0

/-- Maximum height over a list. -/
def heightList : List RefValue → Nat
  | [] => 0
  | e :: rest => max e.height (heightList rest)

end

/-- The self-referential heap: cell 0 is a pointer that points back at
cell 0 (Go: `type T *T; var p T; p = &p`, then logging `p`). -/
def cyclicHeap : List RefValue := [.rcell 0]

/-- Termination of a fuel-model render call, at the default depth limit:
some fuel suffices for the call to return. -/
def rendersTerminate (heap : List RefValue) (v : RefValue) : Prop :=
  ∃ fuel, (prettyFuel defaultMaxLogDepth heap fuel v 0).isSome

/-- Convenience formatter for witnesses: `newFormatter` of the zero options
(key=value mode, depth limit 16). -/
def fmtDefault : Formatter := newFormatter fmtOptionsZero

/-- Well-formed field list in the spec's sense: even length and a dynamic
string at every even (key) position. -/
def wellFormedKV : List Value → Bool
  | [] => true
  | .vstr _ :: _ :: rest => wellFormedKV rest
  | _ => false

/-- Whether the struct-rendering loop skips a field: unexported, tagged
`json:"-"`, or `omitempty` with an empty value — the `continue` conditions of
the `reflect.Struct` arm. -/
def fieldSkipped : StructField → Bool
  | .mk _ exported _ tag value =>
    if exported = false then true
    else
      match tag with
      | none => false
      | some t =>
          if t = "-" then true
          else (tagNameOmitempty t).2 && isEmptyValue value

theorem prettyWithFlags_exceeded (f : Formatter) (v : Value) (raw : Bool) (depth : Nat)
    (h : (depth : Int) > f.opts.maxLogDepth) :
    prettyWithFlags f v raw depth = maxLogDepthMarker := by
  rw [prettyWithFlags.eq_def]
  simp [h]

theorem prettyWithFlags_vstr (f : Formatter) (s : String) (raw : Bool) (depth : Nat)
    (h : ¬ (depth : Int) > f.opts.maxLogDepth) :
    prettyWithFlags f (.vstr s) raw depth = prettyString s := by
  rw [prettyWithFlags.eq_def]
  simp [h, afterMarshaler, dispatchValue]

theorem prettyWithFlags_vnil (f : Formatter) (raw : Bool) (depth : Nat)
    (h : ¬ (depth : Int) > f.opts.maxLogDepth) :
    prettyWithFlags f .vnil raw depth = "null" := by
  rw [prettyWithFlags.eq_def]
  simp [h, afterMarshaler, dispatchValue]

theorem prettyWithFlags_vptr_none (f : Formatter) (raw : Bool) (depth : Nat)
    (h : ¬ (depth : Int) > f.opts.maxLogDepth) :
    prettyWithFlags f (.vptr none) raw depth = "null" := by
  rw [prettyWithFlags.eq_def]
  simp [h, afterMarshaler, dispatchValue]

theorem prettyWithFlags_vptr_some (f : Formatter) (v : Value) (raw : Bool) (depth : Nat)
    (h : ¬ (depth : Int) > f.opts.maxLogDepth) :
    prettyWithFlags f (.vptr (some v)) raw depth = prettyWithFlags f v false depth := by
  rw [prettyWithFlags.eq_def]
  simp [h, afterMarshaler, dispatchValue]

theorem prettyWithFlags_vslice (f : Formatter) (elems : List Value) (raw : Bool) (depth : Nat)
    (h : ¬ (depth : Int) > f.opts.maxLogDepth) :
    prettyWithFlags f (.vslice elems) raw depth =
      "[" ++ prettySliceElems f elems 0 depth ++ "]" := by
  rw [prettyWithFlags.eq_def]
  simp [h, afterMarshaler, dispatchValue]

theorem prettyWithFlags_vstruct (f : Formatter) (fields : List StructField) (depth : Nat)
    (h : ¬ (depth : Int) > f.opts.maxLogDepth) :
    prettyWithFlags f (.vstruct fields) false depth =
      "\x7b" ++ prettyStructFields f fields 0 depth ++ "\x7d" := by
  rw [prettyWithFlags.eq_def]
  simp [h, afterMarshaler, dispatchValue]

theorem prettyWithFlags_vmarshaler (f : Formatter) (u : Value) (r : PanicOr Value)
    (raw : Bool) (depth : Nat)
    (h : ¬ (depth : Int) > f.opts.maxLogDepth) :
    prettyWithFlags f (.vmarshaler u r) raw depth =
      afterMarshaler f (invokeMarshaler r) raw depth := by
  rw [prettyWithFlags.eq_def]
  simp [h]

theorem prettyWithFlags_vstringer (f : Formatter) (u : Value) (r : PanicOr String)
    (raw : Bool) (depth : Nat)
    (h : ¬ (depth : Int) > f.opts.maxLogDepth) :
    prettyWithFlags f (.vstringer u r) raw depth = prettyString (invokeStringer r) := by
  rw [prettyWithFlags.eq_def]
  simp [h, afterMarshaler, dispatchValue]

theorem prettyWithFlags_verror (f : Formatter) (u : Value) (r : PanicOr String)
    (raw : Bool) (depth : Nat)
    (h : ¬ (depth : Int) > f.opts.maxLogDepth) :
    prettyWithFlags f (.verror u r) raw depth = prettyString (invokeError r) := by
  rw [prettyWithFlags.eq_def]
  simp [h, afterMarshaler, dispatchValue]

theorem repStr_succ_right (n : Nat) (s : String) : repStr (n + 1) s = repStr n s ++ s := by
  induction n with
  | zero =>
      show s ++ repStr 0 s = repStr 0 s ++ s
      simp [repStr]
  | succ n ih =>
      show s ++ repStr (n + 1) s = (s ++ repStr n s) ++ s
      conv_lhs => rw [ih]
      rw [String.append_assoc]

theorem afterMarshaler_vstr (f : Formatter) (s : String) (raw : Bool) (depth : Nat) :
    afterMarshaler f (.vstr s) raw depth = prettyString s := by
  simp [afterMarshaler, dispatchValue]

theorem nestK_renders_marker (f : Formatter) :
    ∀ (n : Nat) (depth : Nat) (v : Value),
      (depth : Int) + n = f.opts.maxLogDepth + 1 →
      prettyWithFlags f (nestK n v) false depth =
        repStr n "[" ++ maxLogDepthMarker ++ repStr n "]" := by
  intro n
  induction n with
  | zero =>
      intro depth v h
      rw [nestK, prettyWithFlags_exceeded f v false depth (by omega)]
      simp [repStr]
  | succ n ih =>
      intro depth v h
      rw [nestK, prettyWithFlags_vslice f _ false depth (by omega)]
      rw [prettySliceElems]
      simp only [Nat.zero_lt_succ, gt_iff_lt, Nat.lt_irrefl, if_false]
      rw [prettySliceElems]
      rw [ih (depth + 1) v (by push_cast; push_cast at h; omega)]
      rw [repStr, repStr_succ_right]
      simp [String.append_assoc]

/-- C1: a value whose Marshaler, Stringer (display-string) or error
capability panics during rendering renders as the quoted marker string
embedding the panic payload; when the marker needs no escaping, the payload
text appears verbatim inside the quoted result.  The renderer is a total
function into `String`, so no branch can propagate a failure. -/
theorem c1_panic_containment (f : Formatter) (u : Value) (p : String)
    (hd : ¬ (0 : Int) > f.opts.maxLogDepth) :
    pretty f (.vmarshaler u (.panics p)) = prettyString (panicMarker p)
    ∧ pretty f (.vstringer u (.panics p)) = prettyString (panicMarker p)
    ∧ pretty f (.verror u (.panics p)) = prettyString (panicMarker p)
    ∧ (needsEscape (panicMarker p) = false →
        (∃ a b, pretty f (.vmarshaler u (.panics p)) = a ++ p ++ b)
        ∧ (∃ a b, pretty f (.vstringer u (.panics p)) = a ++ p ++ b)
        ∧ (∃ a b, pretty f (.verror u (.panics p)) = a ++ p ++ b)) := by
  have h1 : pretty f (.vmarshaler u (.panics p)) = prettyString (panicMarker p) := by
    rw [pretty, prettyWithFlags_vmarshaler f u _ false 0 hd]
    rw [invokeMarshaler, afterMarshaler_vstr]
  have h2 : pretty f (.vstringer u (.panics p)) = prettyString (panicMarker p) := by
    rw [pretty, prettyWithFlags_vstringer f u _ false 0 hd, invokeStringer]
  have h3 : pretty f (.verror u (.panics p)) = prettyString (panicMarker p) := by
    rw [pretty, prettyWithFlags_verror f u _ false 0 hd, invokeError]
  refine ⟨h1, h2, h3, fun he => ?_⟩
  have hps : prettyString (panicMarker p) = "\"" ++ panicMarker p ++ "\"" := by
    rw [prettyString, he]
    simp
  have hsplit : "\"" ++ panicMarker p ++ "\"" =
      ("\"" ++ "<panic: ") ++ p ++ (">" ++ "\"") := by
    rw [panicMarker]
    simp only [String.append_assoc]
  exact ⟨⟨"\"" ++ "<panic: ", ">" ++ "\"", by rw [h1, hps, hsplit]⟩,
    ⟨"\"" ++ "<panic: ", ">" ++ "\"", by rw [h2, hps, hsplit]⟩,
    ⟨"\"" ++ "<panic: ", ">" ++ "\"", by rw [h3, hps, hsplit]⟩⟩

theorem c1_panic_containment_witness :
    (¬ (0 : Int) > fmtDefault.opts.maxLogDepth
      ∧ needsEscape (panicMarker "boom") = false)
    ∧ pretty fmtDefault (.vstringer .vnil (.panics "boom")) =
        prettyString (panicMarker "boom")
    ∧ (∃ a b, pretty fmtDefault (.vstringer .vnil (.panics "boom")) =
        a ++ "boom" ++ b) :=
  ⟨⟨by decide, by decide⟩,
   (c1_panic_containment fmtDefault .vnil "boom" (by decide)).2.1,
   ((c1_panic_containment fmtDefault .vnil "boom" (by decide)).2.2.2 (by decide)).2.1⟩

/-- C3: whenever the depth argument strictly exceeds `maxLogDepth` the
renderer returns exactly the quoted max-depth marker, for every value and
flag; and a value nested in `maxLogDepth + 1` slices renders as the marker
wrapped in the brackets of the enclosing levels — in particular the result
contains the marker and is independent of everything below the limit, so no
deeper structure is rendered. -/
theorem c3_max_depth (f : Formatter) (h : 0 ≤ f.opts.maxLogDepth) :
    (∀ (v : Value) (raw : Bool) (depth : Nat),
        (depth : Int) > f.opts.maxLogDepth →
        prettyWithFlags f v raw depth = maxLogDepthMarker)
    ∧ (∀ v : Value,
        pretty f (nestK (f.opts.maxLogDepth.toNat + 1) v) =
          repStr (f.opts.maxLogDepth.toNat + 1) "[" ++ maxLogDepthMarker
            ++ repStr (f.opts.maxLogDepth.toNat + 1) "]")
    ∧ (∀ v w : Value,
        pretty f (nestK (f.opts.maxLogDepth.toNat + 1) v) =
          pretty f (nestK (f.opts.maxLogDepth.toNat + 1) w)) := by
  have hnest : ∀ v : Value,
      pretty f (nestK (f.opts.maxLogDepth.toNat + 1) v) =
        repStr (f.opts.maxLogDepth.toNat + 1) "[" ++ maxLogDepthMarker
          ++ repStr (f.opts.maxLogDepth.toNat + 1) "]" := by
    intro v
    rw [pretty]
    exact nestK_renders_marker f _ 0 v (by omega)
  exact ⟨fun v raw depth hd => prettyWithFlags_exceeded f v raw depth hd,
    hnest, fun v w => by rw [hnest v, hnest w]⟩

theorem c3_max_depth_witness :
    (0 : Int) ≤ fmtDefault.opts.maxLogDepth
    ∧ prettyWithFlags fmtDefault (.vbool true) false 17 = maxLogDepthMarker :=
  ⟨by decide, (c3_max_depth fmtDefault (by decide)).1 (.vbool true) false 17 (by decide)⟩

/-- C9: a nil pointer/interface reference (and a nil `interface\x7b\x7d` value)
renders as the literal `null`; a present reference renders its referent at
the same depth — dereferencing does not consume a depth level. -/
theorem c9_references (f : Formatter) (v : Value) (raw : Bool) (depth : Nat)
    (h : ¬ (depth : Int) > f.opts.maxLogDepth) :
    prettyWithFlags f (.vptr none) raw depth = "null"
    ∧ prettyWithFlags f .vnil raw depth = "null"
    ∧ prettyWithFlags f (.vptr (some v)) raw depth = prettyWithFlags f v false depth :=
  ⟨prettyWithFlags_vptr_none f raw depth h,
   prettyWithFlags_vnil f raw depth h,
   prettyWithFlags_vptr_some f v raw depth h⟩

theorem c9_references_witness :
    ¬ (0 : Int) > fmtDefault.opts.maxLogDepth
    ∧ (prettyWithFlags fmtDefault (.vptr none) false 0 = "null"
        ∧ prettyWithFlags fmtDefault .vnil false 0 = "null"
        ∧ prettyWithFlags fmtDefault (.vptr (some (.vint 5))) false 0 =
            prettyWithFlags fmtDefault (.vint 5) false 0) :=
  ⟨by decide, c9_references fmtDefault (.vint 5) false 0 (by decide)⟩

theorem twoStepInduction {α : Type} {motive : List α → Prop} (h0 : motive [])
    (h1 : ∀ k, motive [k]) (h2 : ∀ k v rest, motive rest → motive (k :: v :: rest)) :
    ∀ l, motive l
  | [] => h0
  | [k] => h1 k
  | k :: v :: rest => h2 k v rest (twoStepInduction h0 h1 h2 rest)

theorem sanitizeLoop_getElem? (f : Formatter) (l : List Value) :
    ∀ i : Nat, (sanitizeLoop f l)[i]? =
      (l[i]?).map (fun k => if i % 2 = 0 then keyFix f k else k) := by
  induction l using twoStepInduction with
  | h0 => intro i; simp [sanitizeLoop]
  | h1 k =>
      intro i
      match i with
      | 0 => simp [sanitizeLoop]
      | n + 1 => simp [sanitizeLoop]
  | h2 k v rest ih =>
      intro i
      match i with
      | 0 => simp [sanitizeLoop]
      | 1 => simp [sanitizeLoop]
      | n + 2 =>
          have h2 : (n + 2) % 2 = n % 2 := Nat.add_mod_right n 2
          simp only [sanitizeLoop, List.getElem?_cons_succ, h2]
          exact ih n

theorem sanitizeLoop_length (f : Formatter) (l : List Value) :
    (sanitizeLoop f l).length = l.length := by
  induction l using twoStepInduction with
  | h0 => simp [sanitizeLoop]
  | h1 k => simp [sanitizeLoop]
  | h2 k v rest ih => simp [sanitizeLoop, ih]

theorem padKV_even (l : List Value) (h : l.length % 2 = 0) : padKV l = l := by
  simp [padKV, h]

theorem padKV_odd (l : List Value) (h : l.length % 2 = 1) :
    padKV l = l ++ [.vstr noValue] := by
  simp [padKV, h]

theorem keyFix_of_not_string (f : Formatter) (k : Value) (h : isStringVal k = false) :
    keyFix f k = .vstr (nonStringKey f k) := by
  cases k <;> simp_all [isStringVal, keyFix]

theorem keyFix_of_string (f : Formatter) (s : String) :
    keyFix f (.vstr s) = .vstr s := by
  simp [keyFix]

/-- C5: on every well-formed field list (even length, every key a dynamic
string) `sanitize` is the identity function — hence idempotent — and
therefore never reorders entries. -/
theorem c5_sanitize_identity (f : Formatter) (kv : List Value)
    (h : wellFormedKV kv = true) :
    sanitize f kv = kv ∧ sanitize f (sanitize f kv) = sanitize f kv := by
  have hmain : ∀ l : List Value, wellFormedKV l = true →
      sanitizeLoop f l = l ∧ l.length % 2 = 0 := by
    intro l
    induction l using twoStepInduction with
    | h0 => intro _; exact ⟨rfl, rfl⟩
    | h1 k =>
        intro hw
        cases k <;> simp [wellFormedKV] at hw
    | h2 k v rest ih =>
        intro hw
        cases k
        case vstr s =>
          simp only [wellFormedKV] at hw
          obtain ⟨ih1, ih2⟩ := ih hw
          refine ⟨?_, ?_⟩
          · rw [sanitizeLoop, ih1, keyFix_of_string]
          · simp only [List.length_cons]
            omega
        all_goals simp [wellFormedKV] at hw
  obtain ⟨h1, h2⟩ := hmain kv h
  have hid : sanitize f kv = kv := by
    rw [sanitize, padKV_even kv h2, h1]
  exact ⟨hid, by rw [hid, hid]⟩

theorem c5_sanitize_identity_witness :
    wellFormedKV [Value.vstr "k", Value.vint 1] = true
    ∧ sanitize fmtDefault [Value.vstr "k", Value.vint 1] =
        [Value.vstr "k", Value.vint 1] :=
  ⟨by decide,
   (c5_sanitize_identity fmtDefault [Value.vstr "k", Value.vint 1] (by decide)).1⟩

theorem byteLen_mk (l : List Char) :
    byteLen (String.mk l) = l.foldr (fun c acc => c.utf8Size + acc) 0 := rfl

theorem foldr_takeBytes (l : List Char) :
    ∀ n : Nat, (takeBytes l n).foldr (fun c acc => c.utf8Size + acc) 0 ≤ n := by
  induction l with
  | nil => intro n; simp [takeBytes]
  | cons c cs ih =>
      intro n
      rw [takeBytes]
      by_cases hc : c.utf8Size ≤ n
      · rw [if_pos hc]
        simp only [List.foldr_cons]
        have := ih (n - c.utf8Size)
        omega
      · rw [if_neg hc]
        simp

theorem byteLen_takeBytes (l : List Char) (n : Nat) :
    byteLen (String.mk (takeBytes l n)) ≤ n := by
  rw [byteLen_mk]
  exact foldr_takeBytes l n

theorem byteLen_snipTruncate (s : String) (n : Nat) :
    byteLen (snipTruncate s n) ≤ n := by
  rw [snipTruncate]
  by_cases h : byteLen s > n
  · rw [if_pos h]
    exact byteLen_takeBytes s.toList n
  · rw [if_neg h]
    omega

/-- C6: `sanitize` appends exactly one `noValue` sentinel to an odd-length
list (the length becomes even and the sentinel sits at the old length);
every non-string key at an even position is replaced by the
`<non-string-key: ...>` marker built from the rendered key truncated to 16
bytes, while the value at the following position is untouched. -/
theorem c6_sanitize_fixes (f : Formatter) :
    (∀ kv : List Value, kv.length % 2 = 1 →
        (sanitize f kv).length = kv.length + 1
        ∧ (sanitize f kv).length % 2 = 0
        ∧ (sanitize f kv)[kv.length]? = some (.vstr noValue))
    ∧ (∀ (kv : List Value) (i : Nat) (k : Value), i % 2 = 0 → kv[i]? = some k →
        isStringVal k = false →
        (sanitize f kv)[i]? = some (.vstr (nonStringKey f k)))
    ∧ (∀ (kv : List Value) (i : Nat), i % 2 = 0 → i + 1 < kv.length →
        (sanitize f kv)[i + 1]? = kv[i + 1]?)
    ∧ (∀ v : Value, nonStringKey f v = "<non-string-key: " ++ snippet f v ++ ">"
        ∧ byteLen (snippet f v) ≤ 16) := by
  refine ⟨?_, ?_, ?_, ?_⟩
  · intro kv hodd
    have hpad : padKV kv = kv ++ [.vstr noValue] := padKV_odd kv hodd
    have hlen : (sanitize f kv).length = kv.length + 1 := by
      rw [sanitize, hpad, sanitizeLoop_length]
      simp
    refine ⟨hlen, by omega, ?_⟩
    rw [sanitize, hpad, sanitizeLoop_getElem?]
    have hget : (kv ++ [Value.vstr noValue])[kv.length]? = some (.vstr noValue) := by
      simp
    rw [hget]
    have : kv.length % 2 ≠ 0 := by omega
    simp [this]
  · intro kv i k hi hk hks
    have hibound : i < kv.length := by
      by_contra hge
      rw [List.getElem?_eq_none (by omega)] at hk
      exact Option.noConfusion hk
    have hkey : (padKV kv)[i]? = some k := by
      rw [padKV]
      by_cases he : kv.length % 2 = 0
      · simp [he, hk]
      · have : kv.length % 2 ≠ 0 := he
        simp only [this, ne_eq, not_false_eq_true, if_true]
        rw [List.getElem?_append_left hibound]
        exact hk
    rw [sanitize, sanitizeLoop_getElem?, hkey]
    simp [hi, keyFix_of_not_string f k hks]
  · intro kv i hi hib
    have hkey : (padKV kv)[i + 1]? = kv[i + 1]? := by
      rw [padKV]
      by_cases he : kv.length % 2 = 0
      · simp [he]
      · have : kv.length % 2 ≠ 0 := he
        simp only [this, ne_eq, not_false_eq_true, if_true]
        exact List.getElem?_append_left hib
    rw [sanitize, sanitizeLoop_getElem?, hkey]
    have : (i + 1) % 2 ≠ 0 := by omega
    simp [this]
  · intro v
    constructor
    · rw [nonStringKey]
    · rw [snippet]
      exact byteLen_snipTruncate (pretty f v) 16

theorem c6_sanitize_fixes_witness :
    (([Value.vstr "k"] : List Value).length % 2 = 1
      ∧ (sanitize fmtDefault [Value.vstr "k"]).length = 1 + 1)
    ∧ (0 % 2 = 0
      ∧ ([Value.vint 7, Value.vstr "v"] : List Value)[0]? = some (.vint 7)
      ∧ isStringVal (Value.vint 7) = false
      ∧ (sanitize fmtDefault [Value.vint 7, Value.vstr "v"])[0]? =
          some (.vstr (nonStringKey fmtDefault (.vint 7))))
    ∧ (0 + 1 < ([Value.vint 7, Value.vstr "v"] : List Value).length
      ∧ (sanitize fmtDefault [Value.vint 7, Value.vstr "v"])[0 + 1]? =
          ([Value.vint 7, Value.vstr "v"] : List Value)[0 + 1]?) :=
  ⟨⟨by decide, ((c6_sanitize_fixes fmtDefault).1 [Value.vstr "k"] (by decide)).1⟩,
   ⟨by decide, rfl, by decide,
    (c6_sanitize_fixes fmtDefault).2.1 [Value.vint 7, Value.vstr "v"] 0 (.vint 7)
      (by decide) rfl (by decide)⟩,
   ⟨by decide,
    (c6_sanitize_fixes fmtDefault).2.2.1 [Value.vint 7, Value.vstr "v"] 0
      (by decide) (by decide)⟩⟩

theorem prettyStructFields_skip (f : Formatter) (fld : StructField)
    (rest : List StructField) (i depth : Nat) (h : fieldSkipped fld = true) :
    prettyStructFields f (fld :: rest) i depth =
      prettyStructFields f rest (i + 1) depth := by
  obtain ⟨nm, ex, an, tg, v⟩ := fld
  cases ex with
  | false =>
      rw [prettyStructFields.eq_def]
      simp
  | true =>
      cases tg with
      | none => simp [fieldSkipped] at h
      | some t =>
          by_cases ht : t = "-"
          · subst ht
            rw [prettyStructFields.eq_def]
            simp
          · have hcond : ((tagNameOmitempty t).2 && isEmptyValue v) = true := by
              simpa [fieldSkipped, ht] using h
            rw [prettyStructFields.eq_def]
            simp [ht, hcond]

theorem prettyStructFields_emit (f : Formatter) (fld : StructField)
    (rest : List StructField) (i depth : Nat) (h : fieldSkipped fld = false) :
    ∃ body, prettyStructFields f (fld :: rest) i depth =
      (if i > 0 then "," else "") ++ body := by
  obtain ⟨nm, ex, an, tg, v⟩ := fld
  cases ex with
  | false => simp [fieldSkipped] at h
  | true =>
      cases tg with
      | none =>
          have hx := prettyStructFields.eq_def f (.mk nm true an none v :: rest) i depth
          dsimp only at hx
          simp only [Bool.not_true, Bool.false_and, Bool.false_eq_true, if_false] at hx
          rw [String.append_assoc] at hx
          exact ⟨_, hx⟩
      | some t =>
          by_cases ht : t = "-"
          · simp [fieldSkipped, ht] at h
          · have hcond : ((tagNameOmitempty t).2 && isEmptyValue v) = false := by
              simpa [fieldSkipped, ht] using h
            have hx := prettyStructFields.eq_def f (.mk nm true an (some t) v :: rest) i depth
            dsimp only at hx
            simp only [Bool.not_true, Bool.false_eq_true, if_false, ht, hcond,
              reduceIte] at hx
            rw [String.append_assoc] at hx
            exact ⟨_, hx⟩

theorem prettyStructFields_comma (f : Formatter) :
    ∀ (fields : List StructField) (i depth : Nat), 1 ≤ i →
      fields.any (fun g => !fieldSkipped g) = true →
      ∃ t, prettyStructFields f fields i depth = "," ++ t := by
  intro fields
  induction fields with
  | nil => intro i depth hi hany; simp at hany
  | cons fld rest ih =>
      intro i depth hi hany
      by_cases hsk : fieldSkipped fld = true
      · rw [prettyStructFields_skip f fld rest i depth hsk]
        apply ih (i + 1) depth (by omega)
        simp [hsk] at hany
        simp [hany]
      · obtain ⟨body, hb⟩ :=
          prettyStructFields_emit f fld rest i depth (by simp at hsk; exact hsk)
        refine ⟨body, ?_⟩
        rw [hb, if_pos (by omega)]

/-- C10: the struct renderer writes the comma separator whenever the field's
declaration index is positive, not when a previous field was actually
emitted; hence for every struct whose first field is skipped (unexported,
json-ignored, or omitempty-and-empty) while some later field is emitted, the
rendered object text begins with `\x7b` immediately followed by `,` — which in
JSON mode is not well-formed JSON. -/
theorem c10_struct_leading_comma (f : Formatter) (fld : StructField)
    (rest : List StructField)
    (h0 : ¬ (0 : Int) > f.opts.maxLogDepth)
    (hskip : fieldSkipped fld = true)
    (hemit : rest.any (fun g => !fieldSkipped g) = true) :
    ∃ t, pretty f (.vstruct (fld :: rest)) = "\x7b," ++ t := by
  rw [pretty, prettyWithFlags_vstruct f _ 0 h0]
  rw [prettyStructFields_skip f fld rest 0 0 hskip]
  obtain ⟨t, ht⟩ := prettyStructFields_comma f rest 1 0 (by omega) hemit
  refine ⟨t ++ "\x7d", ?_⟩
  rw [ht]
  simp only [← String.append_assoc]
  rw [show ("\x7b" : String) ++ "," = "\x7b," from by decide]

theorem c10_struct_leading_comma_witness :
    (¬ (0 : Int) > fmtDefault.opts.maxLogDepth
      ∧ fieldSkipped (StructField.mk "x" false false none (.vint 0)) = true
      ∧ ([StructField.mk "A" true false none (.vint 1)].any
          (fun g => !fieldSkipped g)) = true)
    ∧ ∃ t, pretty fmtDefault
        (.vstruct [StructField.mk "x" false false none (.vint 0),
                   StructField.mk "A" true false none (.vint 1)]) = "\x7b," ++ t :=
  ⟨⟨by decide, by decide, by decide⟩,
   c10_struct_leading_comma fmtDefault (StructField.mk "x" false false none (.vint 0))
     [StructField.mk "A" true false none (.vint 1)] (by decide) (by decide) (by decide)⟩

/-- C8: the claim (and the function's own doc comment, log.go 189-190) says
an Error call is emitted regardless of the verbosity threshold, but
`basicLogger.Error` is guarded by `verbosity >= VerbosityError`: with the
verbosity set to `VerbosityNone` the call writes nothing. -/
theorem c8_error_suppressed_at_verbosity_none :
    BasicLogger.errorCall
      { fmt := fmtDefault, debugL := 0, verbosity := VerbosityNone }
      (some "err") "msg" [] "now" .vnil = none := by
  rw [BasicLogger.errorCall]
  norm_num [VerbosityNone, VerbosityError]

/-- C4 counterexample: on the self-referential pointer chain (cell 0 points
at itself) the renderer never returns, whatever the fuel: dereferencing does
not consume a depth level, so the `maxDepth` bound never cuts the recursion
off. -/
theorem c4_cyclic_value_diverges : ¬ rendersTerminate cyclicHeap (.rcell 0) := by
  rw [rendersTerminate]
  push_neg
  have hnone : ∀ fuel : Nat,
      prettyFuel defaultMaxLogDepth cyclicHeap fuel (.rcell 0) 0 = none := by
    intro fuel
    induction fuel with
    | zero => rw [prettyFuel.eq_def]
    | succ n ih =>
        rw [prettyFuel.eq_def]
        simp only [cyclicHeap, defaultMaxLogDepth]
        norm_num
        exact ih
  intro fuel
  simp [hnone fuel]

theorem prettyFuel_isSome_of_noCell (maxDepth : Int) (heap : List RefValue) :
    ∀ (fuel : Nat) (v : RefValue) (depth : Nat), v.noCell = true →
      v.height < fuel → (prettyFuel maxDepth heap fuel v depth).isSome = true := by
  intro fuel
  induction fuel with
  | zero =>
      intro v depth _ hh
      omega
  | succ n ih =>
      have hlist : ∀ (es : List RefValue) (i dep : Nat), noCellList es = true →
          heightList es < n → (prettyFuelList maxDepth heap n es i dep).isSome = true := by
        intro es
        induction es with
        | nil =>
            intro i dep _ _
            rw [prettyFuelList]
            rfl
        | cons e rest ihl =>
            intro i dep hnc hh
            rw [noCellList] at hnc
            simp only [Bool.and_eq_true] at hnc
            obtain ⟨h1, h2⟩ := hnc
            rw [heightList] at hh
            have hmaxl := Nat.le_max_left e.height (heightList rest)
            have hmaxr := Nat.le_max_right e.height (heightList rest)
            have he := ih e dep h1 (by omega)
            have hr := ihl (i + 1) dep h2 (by omega)
            obtain ⟨se, hse⟩ := Option.isSome_iff_exists.mp he
            obtain ⟨sr, hsr⟩ := Option.isSome_iff_exists.mp hr
            rw [prettyFuelList, hse, hsr]
            rfl
      intro v depth hnc hh
      rw [prettyFuel.eq_def]
      dsimp only
      by_cases hd : (depth : Int) > maxDepth
      · simp [hd]
      · cases v with
        | rint m => simp [hd]
        | rslice elems =>
            rw [RefValue.noCell] at hnc
            rw [RefValue.height] at hh
            have := hlist elems 0 (depth + 1) hnc (by omega)
            simp only [hd, if_false, reduceIte]
            obtain ⟨sl, hsl⟩ := Option.isSome_iff_exists.mp this
            rw [hsl]
            rfl
        | rptr target =>
            cases target with
            | none => simp [hd]
            | some t =>
                rw [RefValue.noCell] at hnc
                rw [RefValue.height] at hh
                simp only [hd, if_false, reduceIte]
                exact ih t depth hnc (by omega)
        | rcell id =>
            rw [RefValue.noCell] at hnc
            exact absurd hnc (by simp)

/-- C4 (amended): for every heap-reference-free value of the pointer
fragment — a finite tree, with no self-referential chain — the render call
terminates: `height + 1` fuel suffices. -/
theorem c4_acyclic_render_terminates (heap : List RefValue) (v : RefValue)
    (h : v.noCell = true) : rendersTerminate heap v :=
  ⟨v.height + 1,
   prettyFuel_isSome_of_noCell defaultMaxLogDepth heap (v.height + 1) v 0 h (by omega)⟩

theorem c4_acyclic_render_terminates_witness :
    RefValue.noCell (.rslice [.rint 3, .rptr (some (.rint 4))]) = true
    ∧ rendersTerminate [] (.rslice [.rint 3, .rptr (some (.rint 4))]) :=
  ⟨by simp [RefValue.noCell, noCellList],
   c4_acyclic_render_terminates [] (.rslice [.rint 3, .rptr (some (.rint 4))])
     (by simp [RefValue.noCell, noCellList])⟩

theorem length_pos_of_ne_empty (s : String) (h : s ≠ "") : 0 < s.length := by
  obtain ⟨data⟩ := s
  cases data with
  | nil => exact absurd rfl h
  | cons c cs => simp [String.length]

theorem joinSep_cons (sep : String) : ∀ (l : List String) (x : String),
    joinSep sep (x :: l) = x ++ joinFrom sep true l := by
  intro l
  induction l with
  | nil => intro x; simp [joinSep, joinFrom]
  | cons y rest ih =>
      intro x
      rw [joinSep, ih y, joinFrom]
      simp [String.append_assoc]

theorem joinFrom_false_joinSep (sep : String) (l : List String) :
    joinFrom sep false l = joinSep sep l := by
  cases l with
  | nil => rfl
  | cons x rest =>
      rw [joinFrom, joinSep_cons]
      simp

theorem joinFrom_append (sep : String) : ∀ (xs ys : List String) (c : Bool),
    joinFrom sep c (xs ++ ys) =
      joinFrom sep c xs ++ joinFrom sep (c || !xs.isEmpty) ys := by
  intro xs
  induction xs with
  | nil =>
      intro ys c
      simp [joinFrom]
  | cons x xs ih =>
      intro ys c
      rw [List.cons_append, joinFrom, joinFrom, ih ys true]
      simp [String.append_assoc]

theorem flattenPairs_pieces (f : Formatter) (esc : Bool) :
    ∀ (l : List Value) (c : Bool),
      flattenPairs f l c esc =
        joinFrom (if f.opts.outputFormat = .outputJSON then "," else " ") c
          ((toPairs l).map (pairPiece f esc)) := by
  intro l
  induction l using twoStepInduction with
  | h0 => intro c; rfl
  | h1 k => intro c; rfl
  | h2 k v rest ih =>
      intro c
      rw [flattenPairs, toPairs, List.map_cons, joinFrom, ih true]
      simp only [pairPiece, String.append_assoc]

theorem flattenStr_pieces (f : Formatter) (kv : List Value) (c esc : Bool) :
    flattenStr f kv c esc =
      joinFrom (if f.opts.outputFormat = .outputJSON then "," else " ") c
        (groupPieces f esc kv) := by
  rw [flattenStr, flattenPairs_pieces, groupPieces]

theorem groupPieces_cons_ne_nil (f : Formatter) (esc : Bool) (k : Value) (kv : List Value) :
    groupPieces f esc (k :: kv) ≠ [] := by
  rw [groupPieces, padKV]
  split
  · cases kv with
    | nil => simp [toPairs]
    | cons v rest => simp [toPairs]
  · cases kv with
    | nil =>
        rename_i h
        simp at h
    | cons v rest => simp [toPairs]

/-- C2: the rendered line is exactly the spec's §4.3 assembly: the opening
brace in JSON mode, then the builtin pairs, the persisted text (when
nonempty) and the call-site pairs in that fixed order, joined with the mode
separator written before every piece except the first content written, then
the closing brace in JSON mode and one terminating newline. -/
theorem c2_render_assembly (f : Formatter) (builtins args : List Value) :
    render f builtins args = assembleSpec f builtins f.valuesStr args := by
  rw [render, assembleSpec]
  rw [flattenStr_pieces, flattenStr_pieces]
  by_cases hv : f.valuesStr = ""
  · cases builtins with
    | nil =>
        simp [hv, ← joinFrom_false_joinSep, joinFrom_append, joinFrom,
          groupPieces, padKV, toPairs, String.append_assoc, String.append_empty]
    | cons b bs =>
        obtain ⟨p, ps, hp⟩ : ∃ p ps, groupPieces f false (b :: bs) = p :: ps := by
          cases hgp : groupPieces f false (b :: bs) with
          | nil => exact absurd hgp (groupPieces_cons_ne_nil f false b bs)
          | cons p ps => exact ⟨p, ps, rfl⟩
        simp [hv, hp, ← joinFrom_false_joinSep, joinFrom_append, joinFrom,
          String.append_assoc, String.append_empty]
  · have hvl : 0 < f.valuesStr.length := length_pos_of_ne_empty _ hv
    cases builtins with
    | nil =>
        simp [hv, hvl, ← joinFrom_false_joinSep, joinFrom_append, joinFrom,
          groupPieces, padKV, toPairs, String.append_assoc, String.append_empty]
    | cons b bs =>
        obtain ⟨p, ps, hp⟩ : ∃ p ps, groupPieces f false (b :: bs) = p :: ps := by
          cases hgp : groupPieces f false (b :: bs) with
          | nil => exact absurd hgp (groupPieces_cons_ne_nil f false b bs)
          | cons p ps => exact ⟨p, ps, rfl⟩
        simp [hv, hvl, hp, ← joinFrom_false_joinSep, joinFrom_append, joinFrom,
          String.append_assoc, String.append_empty]

theorem sanitizedKey_keyFix (f : Formatter) (k : Value) :
    sanitizedKey f (keyFix f k) = sanitizedKey f k := by
  cases k <;> simp [keyFix, sanitizedKey]

theorem toPairs_sanitizeLoop (f : Formatter) : ∀ l : List Value,
    toPairs (sanitizeLoop f l) = (toPairs l).map (fun p => (keyFix f p.1, p.2)) := by
  intro l
  induction l using twoStepInduction with
  | h0 => rfl
  | h1 k => rfl
  | h2 k v rest ih => simp [sanitizeLoop, toPairs, ih]

theorem sanitize_even (f : Formatter) (kv : List Value) :
    (sanitize f kv).length % 2 = 0 := by
  rw [sanitize, sanitizeLoop_length, padKV]
  split
  · rename_i h
    simp only [List.length_append, List.length_cons, List.length_nil]
    omega
  · rename_i h
    omega

theorem groupPieces_sanitize (f : Formatter) (esc : Bool) (kv : List Value) :
    groupPieces f esc (sanitize f kv) = groupPieces f esc kv := by
  rw [groupPieces, padKV_even _ (sanitize_even f kv), sanitize, toPairs_sanitizeLoop,
    groupPieces, List.map_map]
  apply List.map_congr_left
  intro p hp
  simp [pairPiece, sanitizedKey_keyFix]

theorem flattenStr_sanitize (f : Formatter) (kv : List Value) (c esc : Bool) :
    flattenStr f (sanitize f kv) c esc = flattenStr f kv c esc := by
  rw [flattenStr_pieces, flattenStr_pieces, groupPieces_sanitize]

/-- C7 (amended): `AddValues` eagerly re-renders the `valuesStr` cache, whose
text equals the group-3 rendering of `sanitize (old persisted ++ pairs)`.
When `old persisted ++ pairs` has even length the stored persisted field
list equals `sanitize (old persisted ++ pairs)` — flatten's in-place key
fixing writes through the shared backing array, and no sentinel is needed.
The stored list always keeps the combined length: the sentinel that
`sanitize` would append to an odd-length list is never persisted. -/
theorem c7_addValues_state (f : Formatter) (kvList : List Value) :
    ((f.values ++ kvList).length % 2 = 0 →
        (addValues f kvList).values = sanitize f (f.values ++ kvList))
    ∧ (addValues f kvList).values.length = (f.values ++ kvList).length
    ∧ (addValues f kvList).valuesStr =
        flattenStr f (sanitize f (f.values ++ kvList)) false true := by
  refine ⟨?_, ?_, (flattenStr_sanitize f (f.values ++ kvList) false true).symm⟩
  · intro he
    show (if (f.values ++ kvList).length % 2 ≠ 0 then f.values ++ kvList
          else sanitizeLoop f (f.values ++ kvList)) =
        sanitize f (f.values ++ kvList)
    rw [if_neg (by omega), sanitize, padKV_even _ he]
  · show (if (f.values ++ kvList).length % 2 ≠ 0 then f.values ++ kvList
          else sanitizeLoop f (f.values ++ kvList)).length =
        (f.values ++ kvList).length
    split
    · rfl
    · rw [sanitizeLoop_length]

theorem c7_addValues_state_witness :
    (fmtDefault.values ++ [Value.vint 7, Value.vstr "v"]).length % 2 = 0
    ∧ (addValues fmtDefault [Value.vint 7, Value.vstr "v"]).values =
        sanitize fmtDefault (fmtDefault.values ++ [Value.vint 7, Value.vstr "v"])
    ∧ (addValues fmtDefault [Value.vstr "dangling"]).values.length =
        (fmtDefault.values ++ [Value.vstr "dangling"]).length :=
  ⟨by decide,
   (c7_addValues_state fmtDefault [Value.vint 7, Value.vstr "v"]).1 (by decide),
   (c7_addValues_state fmtDefault [Value.vstr "dangling"]).2.1⟩

/-- C7 counterexample: after `withValues(["dangling"])` the stored persisted
field list is the unsanitized one-element list, not the even-length
sanitized list the claim prescribes. -/
theorem c7_values_not_sanitized :
    (addValues fmtDefault [Value.vstr "dangling"]).values ≠
      sanitize fmtDefault (fmtDefault.values ++ [Value.vstr "dangling"]) := by
  intro h
  have hlen := congrArg List.length h
  have h1 : (addValues fmtDefault [Value.vstr "dangling"]).values.length = 1 := rfl
  have h2 : (sanitize fmtDefault (fmtDefault.values ++ [Value.vstr "dangling"])).length = 2 := by
    rw [sanitize, sanitizeLoop_length]
    rfl
  omega

end BeeLog
